import Mathlib

/-!
Shallow embedding of `discord_utils` (src/lib.rs) and verification of the
specification's claims about it.

Modelling conventions:
* Rust `String`/`&str` values are modelled as `List Char`, i.e. as the
  sequence of Unicode scalar values.  All the library's size arithmetic is in
  scalar values (`chars().count()`), and every byte index the source
  manipulates is immediately snapped to a character boundary
  (`char_indices`, `is_char_boundary`), so positions in the byte string
  correspond exactly to positions in the scalar-value list.
* Rust panics (`Option::unwrap()` on `None`) are modelled by the error value
  `Panic.unwrapNone` in an `Except Panic` result.  The library has no other
  failure mechanism: every failure is this one generic unwrap panic.
* `usize` subtraction is modelled by `wrapSub` (release-mode wrap-around
  arithmetic modulo 2^64); `debug_assert_eq!` is a no-op in release builds,
  and the value it would inspect is modelled by `splitPair` so that the
  assertion itself can be analysed.
-/

/-- Strings are modelled as their sequence of Unicode scalar values. -/
abbrev Str := List Char

/-- The Discord character limit for a message (`MSG_LIMIT` in the source). -/
def MSG_LIMIT : Nat := 2000

/-- Model of a Rust panic.  The only panic the library can raise is
`Option::unwrap()` on a `None` value, a generic failure with the fixed
generic message; it carries no information about the condition that caused
it.  Both `add_string` (line 113) and `end_section_with` (line 177) fail
through this single mechanism. -/
inductive Panic where
  | unwrapNone
deriving DecidableEq, Repr

/-- Release-mode `usize` subtraction `a - b` (wrap-around modulo `2 ^ 64`).
In the source this arises as `MSG_LIMIT - cur_msg_size`. -/
def wrapSub (a b : Nat) : Nat := (a + 2 ^ 64 - b) % 2 ^ 64

/-- Model of `MsgBunch`: a collection of strings (the chunks). -/
structure MsgBunch where
  messages : List Str
deriving DecidableEq, Repr

/-- Model of `MsgBunch::new`: one empty message. -/
def MsgBunch.new : MsgBunch := ⟨[[]]⟩

/-- Model of `MsgBunchBuilder`. -/
structure MsgBunchBuilder where
  inner : MsgBunch
  chars_num : Nat
  no_split_section : Option (Str × Nat)
deriving DecidableEq, Repr

/-- Model of `MsgBunchBuilder::new`. -/
def MsgBunchBuilder.new : MsgBunchBuilder :=
  { inner := MsgBunch.new, chars_num := 0, no_split_section := none }

/-- Model of the iterator expression in `add_string` (line 113):
`(cur_msg_size+1..).zip(string_to_add.char_indices()).map(|(s, (i, _))| (s, i)).nth(MSG_LIMIT - cur_msg_size)`.
In the scalar-value model the byte index of the k-th character is the
position k itself, so the iterator is the list of pairs
`(cur_msg_size + 1 + k, k)` for `k < s.length`, and `nth` is `getElem?`
at the (release-mode, wrap-around) index `MSG_LIMIT - cur_msg_size`.
The first component is the value checked by `debug_assert_eq!(s, MSG_LIMIT)`;
the second is the split position. -/
def splitPair (cur_msg_size : Nat) (s : Str) : Option (Nat × Nat) :=
  ((List.range s.length).map fun i => (cur_msg_size + 1 + i, i))[wrapSub MSG_LIMIT cur_msg_size]?

/-- Model of `MsgBunchBuilder::add_string` (lines 102-128).
`messages.last_mut().unwrap()` is modelled by matching on `getLast?`, with
`Panic.unwrapNone` on the empty case, and mutating the last element is
modelled as `dropLast ++ [new last]`.  The `.nth(..).unwrap()` of the
splitting branch is `splitPair`, panicking when it yields `none`. -/
def MsgBunchBuilder.add_string (b : MsgBunchBuilder) (s : Str) :
    Except Panic MsgBunchBuilder :=
  let string_to_add_size := s.length
  match b.no_split_section with
  | some (no_split_section, size) =>
      .ok { b with no_split_section := some (no_split_section ++ s, size + string_to_add_size) }
  | none =>
      if b.chars_num + string_to_add_size > MSG_LIMIT then
        match b.inner.messages.getLast? with
        | none => .error Panic.unwrapNone
        | some cur_msg =>
            match splitPair cur_msg.length s with
            | none => .error Panic.unwrapNone
            | some (_, index) =>
                let new_cur_msg := s.drop index
                .ok { inner := ⟨b.inner.messages.dropLast ++ [cur_msg ++ s.take index, new_cur_msg]⟩,
                      chars_num := new_cur_msg.length,
                      no_split_section := none }
      else
        match b.inner.messages.getLast? with
        | none => .error Panic.unwrapNone
        | some cur_msg =>
            .ok { inner := ⟨b.inner.messages.dropLast ++ [cur_msg ++ s]⟩,
                  chars_num := b.chars_num + string_to_add_size,
                  no_split_section := none }

/-- Model of `MsgBunchBuilder::begin_section` (lines 133-138). -/
def MsgBunchBuilder.begin_section (b : MsgBunchBuilder) : MsgBunchBuilder :=
  match b.no_split_section with
  | none => { b with no_split_section := some ([], 0) }
  | some _ => b

/-- Model of `MsgBunchBuilder::is_in_section` (lines 142-144). -/
def MsgBunchBuilder.is_in_section (b : MsgBunchBuilder) : Bool :=
  b.no_split_section.isSome

/-- Greatest index `p < l.length` such that `f l[p] = true`, if any.  This is
the scalar-value content of the backward scan
`char_indices().rev().skip(n - MSG_LIMIT).take(MSG_LIMIT).find(|(_, c)| f(*c))`
applied to `l = (first MSG_LIMIT characters)`: the reversed iterator visits
the greatest index first. -/
def rfindIdx (f : Char → Bool) : Str → Option Nat
  | [] => none
  | c :: cs =>
      match rfindIdx f cs with
      | some p => some (p + 1)
      | none => if f c then some 0 else none

/-- The `while no_split_section_size > MSG_LIMIT` loop of `end_section_with`
(lines 175-190), returning the list of chunks it pushes (the closed pieces,
followed by the final remainder pushed on line 191).  The `.find(..).unwrap()`
panic (line 177) is `Panic.unwrapNone`.  The source's `index + 1` followed by
the `is_char_boundary` adjustment cuts exactly after the found character,
i.e. at scalar-value position `p + 1`; `split_off`/`replace` make the prefix
a finished chunk and continue with the suffix. -/
def sectionSplitLoop (f : Char → Bool) (no_split_section : Str) :
    Except Panic (List Str) :=
  if h : no_split_section.length > MSG_LIMIT then
    match rfindIdx f (no_split_section.take MSG_LIMIT) with
    | none => .error Panic.unwrapNone
    | some p =>
        match sectionSplitLoop f (no_split_section.drop (p + 1)) with
        | .error e => .error e
        | .ok rest => .ok (no_split_section.take (p + 1) :: rest)
  else
    .ok [no_split_section]
termination_by no_split_section.length
decreasing_by
  simp only [List.length_drop, MSG_LIMIT] at *
  omega

/-- Model of `MsgBunchBuilder::end_section_with` (lines 166-198).
In the over-limit branch the source assigns `self.chars_num = size` before
the loop and never updates it again, so on success `chars_num` is the
section's original total length. -/
def MsgBunchBuilder.end_section_with (b : MsgBunchBuilder) (f : Char → Bool) :
    Except Panic MsgBunchBuilder :=
  match b.no_split_section with
  | none => .ok b
  | some (no_split_section, size) =>
      if b.chars_num + size > MSG_LIMIT then
        match sectionSplitLoop f no_split_section with
        | .error e => .error e
        | .ok chunks =>
            .ok { inner := ⟨b.inner.messages ++ chunks⟩,
                  chars_num := size,
                  no_split_section := none }
      else
        match b.inner.messages.getLast? with
        | none => .error Panic.unwrapNone
        | some cur_msg =>
            .ok { inner := ⟨b.inner.messages.dropLast ++ [cur_msg ++ no_split_section]⟩,
                  chars_num := b.chars_num + size,
                  no_split_section := none }

/-- The default split predicate used by `end_section` (lines 153-156). -/
def defaultSplitPred (c : Char) : Bool :=
  match c with
  | ';' | ',' | '.' | '?' | '!' | ')' | ':' | '-' => true
  | _ => false

/-- Model of `MsgBunchBuilder::end_section` (lines 152-157). -/
def MsgBunchBuilder.end_section (b : MsgBunchBuilder) : Except Panic MsgBunchBuilder :=
  b.end_section_with defaultSplitPred

/-- Model of `MsgBunchBuilder::build` (lines 212-215). -/
def MsgBunchBuilder.build (b : MsgBunchBuilder) : Except Panic MsgBunch :=
  b.end_section.map fun b' => b'.inner

/-- Rust `char::is_whitespace`: the Unicode `White_Space` property. -/
def rustIsWhitespace (c : Char) : Bool :=
  c.toNat = 0x09 || c.toNat = 0x0A || c.toNat = 0x0B || c.toNat = 0x0C ||
  c.toNat = 0x0D || c.toNat = 0x20 || c.toNat = 0x85 || c.toNat = 0xA0 ||
  c.toNat = 0x1680 || (0x2000 ≤ c.toNat && c.toNat ≤ 0x200A) ||
  c.toNat = 0x2028 || c.toNat = 0x2029 || c.toNat = 0x202F ||
  c.toNat = 0x205F || c.toNat = 0x3000

/-- Model of `split_trim` (lines 222-234).  `rfind` of a non-whitespace
character at byte index `i`, plus the `len_utf8` of the character there, is
scalar-value position `p + 1` where `p` is the greatest non-whitespace
position; `find` is the least such position within `start`. -/
def split_trim (s : Str) : Str × Str × Str :=
  let end_trim_index :=
    match rfindIdx (fun c => ! rustIsWhitespace c) s with
    | some p => p + 1
    | none => 0
  let start := s.take end_trim_index
  let end_trim := s.drop end_trim_index
  let front_trim_index :=
    match start.findIdx? (fun c => ! rustIsWhitespace c) with
    | some p => p
    | none => end_trim_index
  (start.take front_trim_index, start.drop front_trim_index, end_trim)

/-- One caller-visible operation on the accumulator. -/
inductive Op where
  | add_string (s : Str)
  | begin_section
  | end_section_with (f : Char → Bool)

/-- Run one operation on a builder (panic-propagating). -/
def runOp (b : MsgBunchBuilder) : Op → Except Panic MsgBunchBuilder
  | Op.add_string s => b.add_string s
  | Op.begin_section => .ok b.begin_section
  | Op.end_section_with f => b.end_section_with f

/-- Run a sequence of operations, stopping at the first panic. -/
def runOps (b : MsgBunchBuilder) : List Op → Except Panic MsgBunchBuilder
  | [] => .ok b
  | op :: ops =>
      match runOp b op with
      | .error e => .error e
      | .ok b' => runOps b' ops

/-- Every `add_string` argument in the sequence has at most `MSG_LIMIT`
scalar values. -/
def addsWithinLimit : List Op → Bool
  | [] => true
  | Op.add_string s :: ops => decide (s.length ≤ MSG_LIMIT) && addsWithinLimit ops
  | Op.begin_section :: ops => addsWithinLimit ops
  | Op.end_section_with _ :: ops => addsWithinLimit ops

/-- Concatenation, in call order, of all strings passed to `add_string`. -/
def opsText : List Op → Str
  | [] => []
  | Op.add_string s :: ops => s ++ opsText ops
  | Op.begin_section :: ops => opsText ops
  | Op.end_section_with _ :: ops => opsText ops

/-- The text currently buffered in the pending section (empty if none). -/
def sectionText (b : MsgBunchBuilder) : Str :=
  match b.no_split_section with
  | none => []
  | some (sec, _) => sec

/-- All text held by the builder: the chunks so far plus the pending
section buffer. -/
def builderText (b : MsgBunchBuilder) : Str :=
  b.inner.messages.flatten ++ sectionText b

/-- The string `sec` occurs contiguously (unbroken) inside `m`. -/
def occursIn (sec m : Str) : Prop :=
  ∃ pre post, m = pre ++ sec ++ post

/-! ## Basic helper lemmas -/

/-- Wrap-around subtraction agrees with truncated subtraction when it does
not underflow. -/
lemma wrapSub_of_le {b : Nat} (h : b ≤ MSG_LIMIT) : wrapSub MSG_LIMIT b = MSG_LIMIT - b := by
  have h64 : (2 : Nat) ^ 64 = 18446744073709551616 := by norm_num
  unfold wrapSub MSG_LIMIT at *
  rw [h64]
  omega

/-- Characterisation of the `nth` computation of the splitting branch of
`add_string`. -/
lemma splitPair_eq (cur : Nat) (s : Str) :
    splitPair cur s =
      if wrapSub MSG_LIMIT cur < s.length then
        some (cur + 1 + wrapSub MSG_LIMIT cur, wrapSub MSG_LIMIT cur)
      else none := by
  unfold splitPair
  by_cases h : wrapSub MSG_LIMIT cur < s.length
  · rw [if_pos h, List.getElem?_map, List.getElem?_range h]
    rfl
  · rw [if_neg h, List.getElem?_map, List.getElem?_eq_none (by simpa using h)]
    rfl

lemma rfindIdx_lt {f : Char → Bool} : ∀ {l : Str} {p : Nat}, rfindIdx f l = some p → p < l.length
  | [], p, h => by simp [rfindIdx] at h
  | c :: cs, p, h => by
      unfold rfindIdx at h
      cases hcs : rfindIdx f cs with
      | some q =>
          rw [hcs] at h
          injection h with h
          subst h
          exact Nat.succ_lt_succ (rfindIdx_lt hcs)
      | none =>
          rw [hcs] at h
          by_cases hc : f c
          · rw [if_pos hc] at h
            injection h with h
            subst h
            simp
          · rw [if_neg hc] at h
            exact absurd h (by simp)

lemma rfindIdx_eq_none {f : Char → Bool} : ∀ {l : Str}, (∀ c ∈ l, f c = false) → rfindIdx f l = none
  | [], _ => rfl
  | c :: cs, h => by
      unfold rfindIdx
      rw [rfindIdx_eq_none fun x hx => h x (List.mem_cons_of_mem c hx)]
      simp [h c (List.mem_cons_self c cs)]

lemma rfindIdx_replicate {f : Char → Bool} {a : Char} (hf : f a = true) :
    ∀ n, 0 < n → rfindIdx f (List.replicate n a) = some (n - 1)
  | 0, h => absurd h (by simp)
  | 1, _ => by simp [rfindIdx, hf]
  | n + 2, _ => by
      rw [List.replicate_succ]
      unfold rfindIdx
      rw [rfindIdx_replicate hf (n + 1) (Nat.succ_pos n)]
      simp

/-- A list with a known last element is its `dropLast` followed by that
element. -/
lemma eq_dropLast_append {α : Type} {l : List α} {a : α} (h : l.getLast? = some a) :
    l = l.dropLast ++ [a] :=
  (List.dropLast_append_getLast? a (Option.mem_def.mpr h)).symm

/-! ## Characterisation of the operations' successful outcomes -/

/-- Successful outcomes of `add_string`: buffering into an open section,
appending into the open chunk, or splitting across the open chunk and a new
chunk (at position `wrapSub MSG_LIMIT cur.length = MSG_LIMIT - cur.length`). -/
lemma add_string_ok {b b' : MsgBunchBuilder} {s : Str}
    (h : b.add_string s = .ok b') :
    (∃ sec size, b.no_split_section = some (sec, size) ∧
        b' = { b with no_split_section := some (sec ++ s, size + s.length) }) ∨
    (∃ cur, b.no_split_section = none ∧ b.inner.messages.getLast? = some cur ∧
        b.chars_num + s.length ≤ MSG_LIMIT ∧
        b' = ⟨⟨b.inner.messages.dropLast ++ [cur ++ s]⟩, b.chars_num + s.length, none⟩) ∨
    (∃ cur, b.no_split_section = none ∧ b.inner.messages.getLast? = some cur ∧
        b.chars_num + s.length > MSG_LIMIT ∧
        wrapSub MSG_LIMIT cur.length < s.length ∧
        b' = ⟨⟨b.inner.messages.dropLast ++
                [cur ++ s.take (wrapSub MSG_LIMIT cur.length),
                 s.drop (wrapSub MSG_LIMIT cur.length)]⟩,
              (s.drop (wrapSub MSG_LIMIT cur.length)).length, none⟩) := by
  rcases hbs : b.no_split_section with _ | ⟨sec, size⟩
  · rcases hcur : b.inner.messages.getLast? with _ | cur
    · simp only [MsgBunchBuilder.add_string, hbs, hcur] at h
      split at h <;> simp at h
    · by_cases hover : b.chars_num + s.length > MSG_LIMIT
      · rcases hsp : splitPair cur.length s with _ | ⟨sv, iv⟩
        · simp only [MsgBunchBuilder.add_string, hbs, hcur, hsp] at h
          rw [if_pos hover] at h
          simp at h
        · simp only [MsgBunchBuilder.add_string, hbs, hcur, hsp] at h
          rw [if_pos hover] at h
          injection h with h
          rw [splitPair_eq] at hsp
          split at hsp
          · rename_i hlt
            simp only [Option.some.injEq, Prod.mk.injEq] at hsp
            obtain ⟨hsv, hiv⟩ := hsp
            subst hiv
            exact Or.inr (Or.inr ⟨cur, rfl, rfl, hover, hlt, h.symm⟩)
          · simp at hsp
      · simp only [MsgBunchBuilder.add_string, hbs, hcur] at h
        rw [if_neg hover] at h
        injection h with h
        exact Or.inr (Or.inl ⟨cur, rfl, rfl, Nat.le_of_not_lt hover, h.symm⟩)
  · simp only [MsgBunchBuilder.add_string, hbs] at h
    injection h with h
    exact Or.inl ⟨sec, size, rfl, h.symm⟩

/-- `begin_section` leaves the chunks and the length counter unchanged and
only ever installs an empty section buffer. -/
lemma begin_section_spec (b : MsgBunchBuilder) :
    (b.begin_section).inner = b.inner ∧ (b.begin_section).chars_num = b.chars_num ∧
      ((b.begin_section).no_split_section = b.no_split_section ∨
        (b.no_split_section = none ∧ (b.begin_section).no_split_section = some ([], 0))) := by
  unfold MsgBunchBuilder.begin_section
  split
  · rename_i hbs
    exact ⟨rfl, rfl, Or.inr ⟨hbs, rfl⟩⟩
  · exact ⟨rfl, rfl, Or.inl rfl⟩

/-- Successful outcomes of `end_section_with`: no section open, the section
fits the open chunk, or the section is promoted to brand-new chunks. -/
lemma end_section_with_ok {b b' : MsgBunchBuilder} {f : Char → Bool}
    (h : b.end_section_with f = .ok b') :
    (b.no_split_section = none ∧ b' = b) ∨
    (∃ sec size cur, b.no_split_section = some (sec, size) ∧
        b.chars_num + size ≤ MSG_LIMIT ∧ b.inner.messages.getLast? = some cur ∧
        b' = ⟨⟨b.inner.messages.dropLast ++ [cur ++ sec]⟩, b.chars_num + size, none⟩) ∨
    (∃ sec size chunks, b.no_split_section = some (sec, size) ∧
        b.chars_num + size > MSG_LIMIT ∧ sectionSplitLoop f sec = .ok chunks ∧
        b' = ⟨⟨b.inner.messages ++ chunks⟩, size, none⟩) := by
  unfold MsgBunchBuilder.end_section_with at h
  split at h
  · rename_i hbs
    injection h with h
    exact Or.inl ⟨hbs, h.symm⟩
  · rename_i sec size hbs
    split at h
    · rename_i hover
      split at h
      · exact absurd h (by simp)
      · rename_i chunks hloop
        injection h with h
        exact Or.inr (Or.inr ⟨sec, size, chunks, hbs, hover, hloop, h.symm⟩)
    · rename_i hover
      split at h
      · exact absurd h (by simp)
      · rename_i cur hcur
        injection h with h
        exact Or.inr (Or.inl ⟨sec, size, cur, hbs, Nat.le_of_not_lt hover, hcur, h.symm⟩)

/-! ## Properties of the section splitting loop -/

/-- Specification of the splitting loop on success: it pushes at least one
chunk, the chunks concatenate back to the section, every chunk is within
`MSG_LIMIT`, and the final chunk (the new open chunk) is no longer than the
whole section. -/
theorem sectionSplitLoop_spec (f : Char → Bool) (sec : Str) (chunks : List Str)
    (h : sectionSplitLoop f sec = .ok chunks) :
    chunks ≠ [] ∧ chunks.flatten = sec ∧ (∀ c ∈ chunks, c.length ≤ MSG_LIMIT) ∧
      ∀ l, chunks.getLast? = some l → l.length ≤ sec.length := by
  unfold sectionSplitLoop at h
  split at h
  · rename_i hgt
    rcases hf : rfindIdx f (sec.take MSG_LIMIT) with _ | p
    · rw [hf] at h
      simp at h
    · simp only [hf] at h
      rcases hrec : sectionSplitLoop f (sec.drop (p + 1)) with e | rest
      · simp only [hrec] at h
        simp at h
      · simp only [hrec] at h
        injection h with h
        subst h
        have hp : p < MSG_LIMIT := by
          have := rfindIdx_lt hf
          rw [List.length_take] at this
          omega
        obtain ⟨hne, hflat, hbound, hlast⟩ :=
          sectionSplitLoop_spec f (sec.drop (p + 1)) rest hrec
        refine ⟨by simp, ?_, ?_, ?_⟩
        · simp [hflat]
        · intro c hc
          rcases List.mem_cons.mp hc with hc | hc
          · subst hc
            rw [List.length_take]
            omega
          · exact hbound c hc
        · intro l hl
          rcases rest with _ | ⟨r, rs⟩
          · exact absurd rfl hne
          · rw [List.getLast?_cons_cons] at hl
            have := hlast l hl
            rw [List.length_drop] at this
            omega
  · rename_i hle
    injection h with h
    subst h
    refine ⟨by simp, by simp, ?_, ?_⟩
    · intro c hc
      rw [List.mem_singleton.mp hc]
      omega
    · intro l hl
      simp only [List.getLast?_singleton, Option.some.injEq] at hl
      subst hl
      exact Nat.le_refl _
termination_by sec.length
decreasing_by
  rename_i hgt _ _
  simp only [List.length_drop, MSG_LIMIT] at *
  omega

/-! ## Reachable-state invariants -/

/-- Core invariant, maintained by every successful operation regardless of
argument sizes: the chunk vector is non-empty, the tracked counter
`chars_num` is an upper bound for the open chunk's true length, and the
pending section's tracked size is exact. -/
def InvCore (b : MsgBunchBuilder) : Prop :=
  b.inner.messages ≠ [] ∧
  (∀ l, b.inner.messages.getLast? = some l → l.length ≤ b.chars_num) ∧
  (∀ sec size, b.no_split_section = some (sec, size) → sec.length = size)

/-- Length invariant: every chunk so far is within `MSG_LIMIT`. -/
def InvLen (b : MsgBunchBuilder) : Prop :=
  ∀ m ∈ b.inner.messages, m.length ≤ MSG_LIMIT

lemma InvCore_new : InvCore MsgBunchBuilder.new := by
  refine ⟨by simp [MsgBunchBuilder.new, MsgBunch.new], ?_, ?_⟩
  · intro l hl
    simp [MsgBunchBuilder.new, MsgBunch.new] at hl
    simp [hl, MsgBunchBuilder.new]
  · intro sec size hss
    simp [MsgBunchBuilder.new] at hss

lemma InvLen_new : InvLen MsgBunchBuilder.new := by
  intro m hm
  simp [MsgBunchBuilder.new, MsgBunch.new] at hm
  simp [hm]

lemma InvCore_add {b b' : MsgBunchBuilder} {s : Str} (hc : InvCore b)
    (h : b.add_string s = .ok b') : InvCore b' := by
  obtain ⟨hne, hlast, hsec⟩ := hc
  rcases add_string_ok h with ⟨sec, size, hbs, rfl⟩ | ⟨cur, hbs, hcur, hfit, rfl⟩ |
    ⟨cur, hbs, hcur, hover, hlt, rfl⟩
  · refine ⟨hne, hlast, ?_⟩
    intro sec' size' hss
    simp only [Option.some.injEq, Prod.mk.injEq] at hss
    obtain ⟨rfl, rfl⟩ := hss
    simp [List.length_append, hsec sec size hbs]
  · refine ⟨by simp, ?_, ?_⟩
    · intro l hl
      simp only at hl
      rw [List.getLast?_concat] at hl
      injection hl with hl
      subst hl
      have := hlast cur hcur
      simp only [List.length_append]
      omega
    · intro sec' size' hss
      simp at hss
  · refine ⟨by simp, ?_, ?_⟩
    · intro l hl
      simp only at hl
      rw [show b.inner.messages.dropLast ++
            [cur ++ s.take (wrapSub MSG_LIMIT cur.length),
             s.drop (wrapSub MSG_LIMIT cur.length)] =
          (b.inner.messages.dropLast ++ [cur ++ s.take (wrapSub MSG_LIMIT cur.length)]) ++
            [s.drop (wrapSub MSG_LIMIT cur.length)] by simp,
          List.getLast?_concat] at hl
      injection hl with hl
      subst hl
      exact Nat.le_refl _
    · intro sec' size' hss
      simp at hss

lemma InvCore_begin {b : MsgBunchBuilder} (hc : InvCore b) : InvCore b.begin_section := by
  obtain ⟨hne, hlast, hsec⟩ := hc
  obtain ⟨hi, hch, hbs⟩ := begin_section_spec b
  refine ⟨by rw [hi]; exact hne, ?_, ?_⟩
  · intro l hl
    rw [hi] at hl
    rw [hch]
    exact hlast l hl
  · intro sec size hss
    rcases hbs with hbs | ⟨_, hbs⟩
    · rw [hbs] at hss
      exact hsec sec size hss
    · rw [hbs] at hss
      simp only [Option.some.injEq, Prod.mk.injEq] at hss
      obtain ⟨rfl, rfl⟩ := hss
      rfl

lemma InvCore_endw {b b' : MsgBunchBuilder} {f : Char → Bool} (hc : InvCore b)
    (h : b.end_section_with f = .ok b') : InvCore b' := by
  obtain ⟨hne, hlast, hsec⟩ := hc
  rcases end_section_with_ok h with ⟨hbs, rfl⟩ | ⟨sec, size, cur, hbs, hfit, hcur, rfl⟩ |
    ⟨sec, size, chunks, hbs, hover, hloop, rfl⟩
  · exact ⟨hne, hlast, hsec⟩
  · refine ⟨by simp, ?_, ?_⟩
    · intro l hl
      simp only at hl
      rw [List.getLast?_concat] at hl
      injection hl with hl
      subst hl
      have h1 := hlast cur hcur
      have h2 := hsec sec size hbs
      simp only [List.length_append]
      omega
    · intro sec' size' hss
      simp at hss
  · obtain ⟨hcne, hflat, hbound, hlastc⟩ := sectionSplitLoop_spec f sec chunks hloop
    refine ⟨?_, ?_, ?_⟩
    · intro hnil
      rw [List.append_eq_nil] at hnil
      exact hne hnil.1
    · intro l hl
      simp only at hl
      rw [List.getLast?_append_of_ne_nil _ hcne] at hl
      have := hlastc l hl
      rw [hsec sec size hbs] at this
      exact this
    · intro sec' size' hss
      simp at hss

lemma InvCore_runOp {b b' : MsgBunchBuilder} {op : Op} (hc : InvCore b)
    (h : runOp b op = .ok b') : InvCore b' := by
  cases op with
  | add_string s => exact InvCore_add hc h
  | begin_section =>
      injection h with h
      subst h
      exact InvCore_begin hc
  | end_section_with f => exact InvCore_endw hc h

lemma InvCore_runOps {ops : List Op} : ∀ {b b' : MsgBunchBuilder}, InvCore b →
    runOps b ops = .ok b' → InvCore b' := by
  induction ops with
  | nil =>
      intro b b' hc h
      injection h with h
      subst h
      exact hc
  | cons op ops ih =>
      intro b b' hc h
      unfold runOps at h
      rcases hop : runOp b op with e | b₁
      · rw [hop] at h
        simp at h
      · rw [hop] at h
        exact ih (InvCore_runOp hc hop) h

lemma InvLen_add {b b' : MsgBunchBuilder} {s : Str} (hc : InvCore b) (hl : InvLen b)
    (hs : s.length ≤ MSG_LIMIT) (h : b.add_string s = .ok b') : InvLen b' := by
  obtain ⟨hne, hlast, hsec⟩ := hc
  rcases add_string_ok h with ⟨sec, size, hbs, rfl⟩ | ⟨cur, hbs, hcur, hfit, rfl⟩ |
    ⟨cur, hbs, hcur, hover, hlt, rfl⟩
  · exact hl
  · intro m hm
    simp only at hm
    rcases List.mem_append.mp hm with hm | hm
    · exact hl m ((List.dropLast_sublist _).subset hm)
    · rw [List.mem_singleton.mp hm]
      have := hlast cur hcur
      rw [List.length_append]
      omega
  · have hcurlen : cur.length ≤ MSG_LIMIT := hl cur (List.mem_of_getLast?_eq_some hcur)
    have hk : wrapSub MSG_LIMIT cur.length = MSG_LIMIT - cur.length := wrapSub_of_le hcurlen
    intro m hm
    simp only at hm
    rcases List.mem_append.mp hm with hm | hm
    · exact hl m ((List.dropLast_sublist _).subset hm)
    · rcases List.mem_cons.mp hm with hm | hm
      · subst hm
        rw [List.length_append, List.length_take, hk]
        omega
      · rw [List.mem_singleton.mp hm, List.length_drop]
        omega

lemma InvLen_begin {b : MsgBunchBuilder} (hl : InvLen b) : InvLen b.begin_section := by
  intro m hm
  rw [(begin_section_spec b).1] at hm
  exact hl m hm

lemma InvLen_endw {b b' : MsgBunchBuilder} {f : Char → Bool} (hc : InvCore b) (hl : InvLen b)
    (h : b.end_section_with f = .ok b') : InvLen b' := by
  obtain ⟨hne, hlast, hsec⟩ := hc
  rcases end_section_with_ok h with ⟨hbs, rfl⟩ | ⟨sec, size, cur, hbs, hfit, hcur, rfl⟩ |
    ⟨sec, size, chunks, hbs, hover, hloop, rfl⟩
  · exact hl
  · intro m hm
    simp only at hm
    rcases List.mem_append.mp hm with hm | hm
    · exact hl m ((List.dropLast_sublist _).subset hm)
    · rw [List.mem_singleton.mp hm]
      have h1 := hlast cur hcur
      have h2 := hsec sec size hbs
      rw [List.length_append]
      omega
  · obtain ⟨hcne, hflat, hbound, hlastc⟩ := sectionSplitLoop_spec f sec chunks hloop
    intro m hm
    simp only at hm
    rcases List.mem_append.mp hm with hm | hm
    · exact hl m hm
    · exact hbound m hm

lemma addsWithinLimit_cons {op : Op} {ops : List Op}
    (h : addsWithinLimit (op :: ops) = true) :
    addsWithinLimit [op] = true ∧ addsWithinLimit ops = true := by
  cases op with
  | add_string s =>
      simp [addsWithinLimit] at h ⊢
      exact h
  | begin_section =>
      simp [addsWithinLimit] at h ⊢
      exact h
  | end_section_with f =>
      simp [addsWithinLimit] at h ⊢
      exact h

lemma InvLen_runOp {b b' : MsgBunchBuilder} {op : Op} (hc : InvCore b) (hl : InvLen b)
    (hsmall : addsWithinLimit [op] = true) (h : runOp b op = .ok b') : InvLen b' := by
  cases op with
  | add_string s =>
      have hs : s.length ≤ MSG_LIMIT := by
        simp [addsWithinLimit] at hsmall
        exact hsmall
      exact InvLen_add hc hl hs h
  | begin_section =>
      injection h with h
      subst h
      exact InvLen_begin hl
  | end_section_with f => exact InvLen_endw hc hl h

lemma InvLen_runOps {ops : List Op} : ∀ {b b' : MsgBunchBuilder}, InvCore b → InvLen b →
    addsWithinLimit ops = true → runOps b ops = .ok b' → InvLen b' := by
  induction ops with
  | nil =>
      intro b b' _ hl _ h
      injection h with h
      subst h
      exact hl
  | cons op ops ih =>
      intro b b' hc hl hsmall h
      obtain ⟨hsm1, hsm2⟩ := addsWithinLimit_cons hsmall
      unfold runOps at h
      rcases hop : runOp b op with e | b₁
      · rw [hop] at h
        simp at h
      · rw [hop] at h
        exact ih (InvCore_runOp hc hop) (InvLen_runOp hc hl hsm1 hop) hsm2 h

/-! ## Text conservation -/

/-- The text contributed by a single operation. -/
def opText : Op → Str
  | Op.add_string s => s
  | Op.begin_section => []
  | Op.end_section_with _ => []

lemma opsText_cons (op : Op) (ops : List Op) :
    opsText (op :: ops) = opText op ++ opsText ops := by
  cases op <;> simp [opsText, opText]

lemma builderText_add {b b' : MsgBunchBuilder} {s : Str}
    (h : b.add_string s = .ok b') : builderText b' = builderText b ++ s := by
  rcases add_string_ok h with ⟨sec, size, hbs, rfl⟩ | ⟨cur, hbs, hcur, hfit, rfl⟩ |
    ⟨cur, hbs, hcur, hover, hlt, rfl⟩
  · simp [builderText, sectionText, hbs, List.append_assoc]
  · rw [builderText, builderText, sectionText, sectionText]
    simp only [hbs]
    rw [eq_dropLast_append hcur]
    simp [List.append_assoc]
  · rw [builderText, builderText, sectionText, sectionText]
    simp only [hbs]
    conv_rhs => rw [eq_dropLast_append hcur]
    simp [List.append_assoc]

lemma builderText_begin (b : MsgBunchBuilder) :
    builderText b.begin_section = builderText b := by
  obtain ⟨hi, _, hbs⟩ := begin_section_spec b
  rw [builderText, builderText, hi]
  rcases hbs with hbs | ⟨hnone, hbs⟩
  · rw [sectionText, sectionText, hbs]
  · rw [sectionText, sectionText, hbs, hnone]

lemma builderText_endw {b b' : MsgBunchBuilder} {f : Char → Bool}
    (h : b.end_section_with f = .ok b') : builderText b' = builderText b := by
  rcases end_section_with_ok h with ⟨hbs, rfl⟩ | ⟨sec, size, cur, hbs, hfit, hcur, rfl⟩ |
    ⟨sec, size, chunks, hbs, hover, hloop, rfl⟩
  · rfl
  · rw [builderText, builderText, sectionText, sectionText]
    simp only [hbs]
    conv_rhs => rw [eq_dropLast_append hcur]
    simp [List.append_assoc]
  · obtain ⟨hcne, hflat, hbound, hlastc⟩ := sectionSplitLoop_spec f sec chunks hloop
    rw [builderText, builderText, sectionText, sectionText]
    simp only [hbs]
    simp [List.flatten_append, hflat]

lemma builderText_runOp {b b' : MsgBunchBuilder} {op : Op}
    (h : runOp b op = .ok b') : builderText b' = builderText b ++ opText op := by
  cases op with
  | add_string s => exact builderText_add h
  | begin_section =>
      injection h with h
      subst h
      simp [builderText_begin, opText]
  | end_section_with f =>
      rw [builderText_endw h]
      simp [opText]

lemma builderText_runOps {ops : List Op} : ∀ {b b' : MsgBunchBuilder},
    runOps b ops = .ok b' → builderText b' = builderText b ++ opsText ops := by
  induction ops with
  | nil =>
      intro b b' h
      injection h with h
      subst h
      simp [opsText]
  | cons op ops ih =>
      intro b b' h
      unfold runOps at h
      rcases hop : runOp b op with e | b₁
      · rw [hop] at h
        simp at h
      · rw [hop] at h
        rw [ih h, builderText_runOp hop, opsText_cons, List.append_assoc]

/-! ## Chunks only ever grow on the right -/

lemma mono_add {b b' : MsgBunchBuilder} {s : Str} (h : b.add_string s = .ok b') :
    ∀ m ∈ b.inner.messages, ∃ post, m ++ post ∈ b'.inner.messages := by
  rcases add_string_ok h with ⟨sec, size, hbs, rfl⟩ | ⟨cur, hbs, hcur, hfit, rfl⟩ |
    ⟨cur, hbs, hcur, hover, hlt, rfl⟩
  · intro m hm
    exact ⟨[], by simp [hm]⟩
  · intro m hm
    rw [eq_dropLast_append hcur] at hm
    rcases List.mem_append.mp hm with hm | hm
    · exact ⟨[], by simp only [List.append_nil]; exact List.mem_append_left _ hm⟩
    · rw [List.mem_singleton.mp hm]
      exact ⟨s, by simp⟩
  · intro m hm
    rw [eq_dropLast_append hcur] at hm
    rcases List.mem_append.mp hm with hm | hm
    · exact ⟨[], by simp only [List.append_nil]; exact List.mem_append_left _ hm⟩
    · rw [List.mem_singleton.mp hm]
      refine ⟨s.take (wrapSub MSG_LIMIT cur.length), ?_⟩
      simp

lemma mono_endw {b b' : MsgBunchBuilder} {f : Char → Bool}
    (h : b.end_section_with f = .ok b') :
    ∀ m ∈ b.inner.messages, ∃ post, m ++ post ∈ b'.inner.messages := by
  rcases end_section_with_ok h with ⟨hbs, rfl⟩ | ⟨sec, size, cur, hbs, hfit, hcur, rfl⟩ |
    ⟨sec, size, chunks, hbs, hover, hloop, rfl⟩
  · intro m hm
    exact ⟨[], by simp [hm]⟩
  · intro m hm
    rw [eq_dropLast_append hcur] at hm
    rcases List.mem_append.mp hm with hm | hm
    · exact ⟨[], by simp only [List.append_nil]; exact List.mem_append_left _ hm⟩
    · rw [List.mem_singleton.mp hm]
      exact ⟨sec, by simp⟩
  · intro m hm
    exact ⟨[], by simp only [List.append_nil]; exact List.mem_append_left _ hm⟩

lemma mono_runOp {b b' : MsgBunchBuilder} {op : Op} (h : runOp b op = .ok b') :
    ∀ m ∈ b.inner.messages, ∃ post, m ++ post ∈ b'.inner.messages := by
  cases op with
  | add_string s => exact mono_add h
  | begin_section =>
      injection h with h
      subst h
      intro m hm
      rw [(begin_section_spec b).1]
      exact ⟨[], by simp [hm]⟩
  | end_section_with f => exact mono_endw h

lemma mono_runOps {ops : List Op} : ∀ {b b' : MsgBunchBuilder},
    runOps b ops = .ok b' →
    ∀ m ∈ b.inner.messages, ∃ post, m ++ post ∈ b'.inner.messages := by
  induction ops with
  | nil =>
      intro b b' h m hm
      injection h with h
      subst h
      exact ⟨[], by simp [hm]⟩
  | cons op ops ih =>
      intro b b' h m hm
      unfold runOps at h
      rcases hop : runOp b op with e | b₁
      · rw [hop] at h
        simp at h
      · rw [hop] at h
        obtain ⟨post₁, hm₁⟩ := mono_runOp hop m hm
        obtain ⟨post₂, hm₂⟩ := ih h _ hm₁
        exact ⟨post₁ ++ post₂, by rw [← List.append_assoc]; exact hm₂⟩

/-- Right extension preserves contiguous occurrence. -/
lemma occursIn_append_right {sec m post : Str} (h : occursIn sec m) :
    occursIn sec (m ++ post) := by
  obtain ⟨pre, post', rfl⟩ := h
  exact ⟨pre, post' ++ post, by simp [List.append_assoc]⟩

/-! ## Running concrete traces -/

lemma runOps_cons_ok {b b₁ b' : MsgBunchBuilder} {op : Op} {ops : List Op}
    (h1 : runOp b op = .ok b₁) (h2 : runOps b₁ ops = .ok b') :
    runOps b (op :: ops) = .ok b' := by
  unfold runOps
  simp only [h1]
  exact h2

/-- A section of 2001 commas: longer than `MSG_LIMIT`, and every character
is an acceptable cut point for the default predicate. -/
def demoSec : Str := List.replicate 2001 ','

/-- Trace: open a section, buffer `demoSec`, close the section with the
default predicate. -/
def demoOps : List Op :=
  [Op.begin_section, Op.add_string demoSec, Op.end_section_with defaultSplitPred]

/-- The builder state just before the section is closed. -/
def demoB0 : MsgBunchBuilder := ⟨⟨[[]]⟩, 0, some (demoSec, 2001)⟩

/-- The builder state after the multi-chunk section split: the final open
chunk holds one comma, while `chars_num` holds the section's original
total length 2001. -/
def demoB1 : MsgBunchBuilder := ⟨⟨[[], List.replicate 2000 ',', [',']]⟩, 2001, none⟩

lemma loop_demo : sectionSplitLoop defaultSplitPred (List.replicate 2001 ',') =
    .ok [List.replicate 2000 ',', [',']] := by
  have hmin : min MSG_LIMIT 2001 = 2000 := by
    rw [MSG_LIMIT]
    omega
  have hfind : rfindIdx defaultSplitPred ((List.replicate 2001 (',' : Char)).take MSG_LIMIT) =
      some 1999 := by
    rw [List.take_replicate, hmin]
    have h := rfindIdx_replicate (f := defaultSplitPred) (a := ',') (by decide) 2000 (by omega)
    norm_num at h
    exact h
  rw [sectionSplitLoop]
  rw [dif_pos (by rw [List.length_replicate, MSG_LIMIT]; omega)]
  simp only [hfind]
  have hdrop : (List.replicate 2001 (',' : Char)).drop (1999 + 1) = List.replicate 1 ',' := by
    rw [List.drop_replicate]
  rw [hdrop]
  have hrec : sectionSplitLoop defaultSplitPred (List.replicate 1 ',') =
      .ok [List.replicate 1 ','] := by
    rw [sectionSplitLoop]
    rw [dif_neg (by rw [List.length_replicate, MSG_LIMIT]; omega)]
  simp only [hrec]
  rw [List.take_replicate]
  norm_num

lemma endw_demo : demoB0.end_section_with defaultSplitPred = .ok demoB1 := by
  have hloop := loop_demo
  rw [show demoB0 = ⟨⟨[[]]⟩, 0, some (demoSec, 2001)⟩ from rfl]
  simp only [MsgBunchBuilder.end_section_with, demoSec]
  rw [if_pos (by rw [MSG_LIMIT]; omega)]
  simp only [hloop]
  rfl

lemma runOps_demo : runOps MsgBunchBuilder.new demoOps = .ok demoB1 := by
  have h1 : runOp MsgBunchBuilder.new Op.begin_section =
      .ok ⟨⟨[[]]⟩, 0, some ([], 0)⟩ := rfl
  have h2 : runOp (⟨⟨[[]]⟩, 0, some ([], 0)⟩ : MsgBunchBuilder) (Op.add_string demoSec) =
      .ok demoB0 := by
    show (⟨⟨[[]]⟩, 0, some ([], 0)⟩ : MsgBunchBuilder).add_string demoSec = .ok demoB0
    simp only [MsgBunchBuilder.add_string, demoSec, List.length_replicate, List.nil_append,
      demoB0]
  have h3 : runOp demoB0 (Op.end_section_with defaultSplitPred) = .ok demoB1 := endw_demo
  exact runOps_cons_ok h1 (runOps_cons_ok h2 (runOps_cons_ok h3 rfl))

/-! ## Unpacking `build` -/

lemma build_ok {b : MsgBunchBuilder} {bunch : MsgBunch} (h : b.build = .ok bunch) :
    ∃ b₂, b.end_section_with defaultSplitPred = .ok b₂ ∧ bunch = b₂.inner := by
  unfold MsgBunchBuilder.build MsgBunchBuilder.end_section at h
  rcases he : b.end_section_with defaultSplitPred with e | b₂
  · rw [he] at h
    simp [Except.map] at h
  · rw [he] at h
    simp only [Except.map] at h
    injection h with h
    exact ⟨b₂, rfl, h.symm⟩

lemma endw_section_none {b b' : MsgBunchBuilder} {f : Char → Bool}
    (h : b.end_section_with f = .ok b') : b'.no_split_section = none := by
  rcases end_section_with_ok h with ⟨hbs, rfl⟩ | ⟨sec, size, cur, hbs, hfit, hcur, rfl⟩ |
    ⟨sec, size, chunks, hbs, hover, hloop, rfl⟩
  · exact hbs
  · rfl
  · rfl

/-! ## The claims -/

/-- C1: for every sequence of `add`/`begin-section`/`end-section` calls in
which no single `add` argument exceeds `MSG_LIMIT` scalar values, every chunk
of the `MsgBunch` returned by a successful `build` has scalar-value length at
most `MSG_LIMIT`. -/
theorem C1_length_invariant (ops : List Op) (b : MsgBunchBuilder) (bunch : MsgBunch)
    (hsmall : addsWithinLimit ops = true)
    (hrun : runOps MsgBunchBuilder.new ops = .ok b)
    (hbuild : b.build = .ok bunch) :
    ∀ m ∈ bunch.messages, m.length ≤ MSG_LIMIT := by
  have hc := InvCore_runOps InvCore_new hrun
  have hl := InvLen_runOps InvCore_new InvLen_new hsmall hrun
  obtain ⟨b₂, he, rfl⟩ := build_ok hbuild
  exact InvLen_endw hc hl he

/-- Witness for C1 at the one-operation trace adding `"hi"`. -/
theorem C1_length_invariant_witness : (['h', 'i'] : Str).length ≤ MSG_LIMIT :=
  C1_length_invariant [Op.add_string ['h', 'i']] ⟨⟨[['h', 'i']]⟩, 2, none⟩ ⟨[['h', 'i']]⟩
    (by decide) rfl rfl ['h', 'i'] (by simp)

/-- C2: for every sequence of `add`/`begin-section`/`end-section` calls that
completes without panicking, concatenating all chunks of the built `MsgBunch`
in order reproduces the concatenation, in call order, of all strings passed
to `add` - no characters added, dropped, or reordered. -/
theorem C2_concat_fidelity (ops : List Op) (b : MsgBunchBuilder) (bunch : MsgBunch)
    (hrun : runOps MsgBunchBuilder.new ops = .ok b)
    (hbuild : b.build = .ok bunch) :
    bunch.messages.flatten = opsText ops := by
  obtain ⟨b₂, he, rfl⟩ := build_ok hbuild
  have h1 : builderText b₂ = builderText b := builderText_endw he
  have h2 : builderText b = builderText MsgBunchBuilder.new ++ opsText ops :=
    builderText_runOps hrun
  have h3 : builderText b₂ = b₂.inner.messages.flatten := by
    rw [builderText, sectionText, endw_section_none he, List.append_nil]
  rw [← h3, h1, h2]
  rfl

/-- Witness for C2 at the one-operation trace adding `"hi"`. -/
theorem C2_concat_fidelity_witness :
    (⟨[['h', 'i']]⟩ : MsgBunch).messages.flatten = opsText [Op.add_string ['h', 'i']] :=
  C2_concat_fidelity [Op.add_string ['h', 'i']] ⟨⟨[['h', 'i']]⟩, 2, none⟩ ⟨[['h', 'i']]⟩ rfl rfl

/-- C10: in every state reachable from construction by `add`/
`begin-section`/`end-section` calls, the vector of chunk strings is
non-empty, so the `last_mut().unwrap()` calls of the implementation cannot
fail. -/
theorem C10_messages_nonempty (ops : List Op) (b : MsgBunchBuilder)
    (hrun : runOps MsgBunchBuilder.new ops = .ok b) :
    b.inner.messages ≠ [] ∧ b.inner.messages.getLast?.isSome = true := by
  have hc := InvCore_runOps InvCore_new hrun
  exact ⟨hc.1, by simpa using hc.1⟩

/-- Witness for C10 at the empty trace. -/
theorem C10_messages_nonempty_witness :
    MsgBunchBuilder.new.inner.messages.getLast?.isSome = true :=
  (C10_messages_nonempty [] MsgBunchBuilder.new rfl).2

/-- C6 (amended): in every reachable accumulator state the pending-section
buffer is present exactly when a section is open (`is_in_section`), and
whenever no section is open the tracked counter `chars_num` is an upper
bound on - not necessarily equal to - the true scalar-value count of the
last chunk under construction.  Equality fails after a multi-chunk section
split, which leaves `chars_num` at the section's original total length. -/
theorem C6_pending_section_and_counter (ops : List Op) (b : MsgBunchBuilder)
    (hrun : runOps MsgBunchBuilder.new ops = .ok b) :
    ((b.no_split_section.isSome = true) ↔ (b.is_in_section = true)) ∧
    (b.no_split_section = none →
      ∀ l, b.inner.messages.getLast? = some l → l.length ≤ b.chars_num) := by
  have hc := InvCore_runOps InvCore_new hrun
  exact ⟨Iff.rfl, fun _ l hl => hc.2.1 l hl⟩

/-- Witness for C6 (amended) at the empty trace: the fresh builder has no
open section and its open chunk is the empty string, within `chars_num`. -/
theorem C6_pending_section_and_counter_witness :
    ((MsgBunchBuilder.new.no_split_section.isSome = true) ↔
      (MsgBunchBuilder.new.is_in_section = true)) ∧
    ([] : Str).length ≤ MsgBunchBuilder.new.chars_num :=
  ⟨(C6_pending_section_and_counter [] MsgBunchBuilder.new rfl).1,
    (C6_pending_section_and_counter [] MsgBunchBuilder.new rfl).2 rfl [] rfl⟩

/-- Counterexample to C6 as stated: after the trace `demoOps` (open a
section, buffer 2001 commas, close it), no section is open but the last
chunk holds 1 character while `chars_num` holds 2001, so `chars_num` does
not equal the true scalar-value count of the last chunk. -/
theorem C6_exact_counter_counterexample :
    ¬ (∀ (ops : List Op) (b : MsgBunchBuilder),
        runOps MsgBunchBuilder.new ops = .ok b →
        ((b.no_split_section.isSome = true) ↔ (b.is_in_section = true)) ∧
        (b.no_split_section = none →
          ∀ l, b.inner.messages.getLast? = some l → l.length = b.chars_num)) := by
  intro hcl
  have hlast : demoB1.inner.messages.getLast? = some [','] := by
    show ([[], List.replicate 2000 ',', [',']] : List Str).getLast? = some [',']
    rw [List.getLast?_cons_cons, List.getLast?_cons_cons, List.getLast?_singleton]
  have h := (hcl demoOps demoB1 runOps_demo).2 rfl [','] hlast
  exact absurd (show (1 : Nat) = 2001 from h) (by omega)

/-- C7: when `end_section_with` splits a section that does not fit the open
chunk's remaining room, the counter `chars_num` ends up holding the
section's original total scalar-value length (assigned once before the
splitting loop and never corrected afterwards). -/
theorem C7_chars_num_stale (b b' : MsgBunchBuilder) (f : Char → Bool) (sec : Str) (size : Nat)
    (hsec : b.no_split_section = some (sec, size))
    (hover : b.chars_num + size > MSG_LIMIT)
    (hok : b.end_section_with f = .ok b') :
    b'.chars_num = size := by
  rcases end_section_with_ok hok with ⟨hbs, rfl⟩ | ⟨sec', size', cur, hbs, hfit, hcur, rfl⟩ |
    ⟨sec', size', chunks, hbs, hover', hloop, rfl⟩
  · rw [hbs] at hsec
    exact absurd hsec (by simp)
  · rw [hbs] at hsec
    simp only [Option.some.injEq, Prod.mk.injEq] at hsec
    obtain ⟨rfl, rfl⟩ := hsec
    omega
  · rw [hbs] at hsec
    simp only [Option.some.injEq, Prod.mk.injEq] at hsec
    obtain ⟨rfl, rfl⟩ := hsec
    rfl

/-- Witness for C7: closing the 2001-comma section splits it into a
2000-comma chunk and a 1-comma open chunk, yet `chars_num` is 2001, the
section's original total - not the length 1 of the pushed remainder. -/
theorem C7_chars_num_stale_witness :
    demoB1.chars_num = 2001 ∧ demoB1.inner.messages.getLast? = some [','] ∧
      ([','] : Str).length = 1 :=
  ⟨C7_chars_num_stale demoB0 demoB1 defaultSplitPred demoSec 2001 rfl (by decide) endw_demo,
    by rw [show demoB1.inner.messages = [[], List.replicate 2000 ',', [',']] from rfl,
        List.getLast?_cons_cons, List.getLast?_cons_cons, List.getLast?_singleton],
    rfl⟩

/-- C4: if, when a section is closed, its buffered text together with the
tracked open-chunk length fits within `MSG_LIMIT`, then the section's entire
text appears contiguously (unbroken) inside a single chunk of the `MsgBunch`
finally built - however the accumulator is used afterwards; otherwise the
section is promoted to brand-new chunks holding exactly the section's text,
and the previously existing chunks - in particular the open one - are left
exactly as they were, with no partial fragment of the section appended. -/
theorem C4_section_atomicity (b b' b'' : MsgBunchBuilder) (bunch : MsgBunch)
    (f : Char → Bool) (sec : Str) (size : Nat) (ops : List Op)
    (hsec : b.no_split_section = some (sec, size))
    (hend : b.end_section_with f = .ok b')
    (hops : runOps b' ops = .ok b'')
    (hbuild : b''.build = .ok bunch) :
    (sec.length ≤ MSG_LIMIT → b.chars_num + size ≤ MSG_LIMIT →
        ∃ m ∈ bunch.messages, occursIn sec m) ∧
    (b.chars_num + size > MSG_LIMIT →
        ∃ chunks, chunks ≠ [] ∧ b'.inner.messages = b.inner.messages ++ chunks ∧
          chunks.flatten = sec) := by
  constructor
  · intro hslen hfit
    rcases end_section_with_ok hend with ⟨hbs, rfl⟩ | ⟨sec', size', cur, hbs, hfit', hcur, rfl⟩ |
      ⟨sec', size', chunks, hbs, hover', hloop, rfl⟩
    · rw [hbs] at hsec
      exact absurd hsec (by simp)
    · rw [hsec] at hbs
      simp only [Option.some.injEq, Prod.mk.injEq] at hbs
      obtain ⟨rfl, rfl⟩ := hbs
      have hmem : (cur ++ sec) ∈
          (b.inner.messages.dropLast ++ [cur ++ sec] : List Str) :=
        List.mem_append_right _ (List.mem_singleton.mpr rfl)
      have hocc : occursIn sec (cur ++ sec) := ⟨cur, [], by simp⟩
      obtain ⟨post₁, hm₁⟩ := mono_runOps hops _ hmem
      obtain ⟨b₂, he, rfl⟩ := build_ok hbuild
      obtain ⟨post₂, hm₂⟩ := mono_endw he _ hm₁
      exact ⟨_, hm₂, occursIn_append_right (occursIn_append_right hocc)⟩
    · rw [hsec] at hbs
      simp only [Option.some.injEq, Prod.mk.injEq] at hbs
      obtain ⟨rfl, rfl⟩ := hbs
      omega
  · intro hover
    rcases end_section_with_ok hend with ⟨hbs, rfl⟩ | ⟨sec', size', cur, hbs, hfit', hcur, rfl⟩ |
      ⟨sec', size', chunks, hbs, hover', hloop, rfl⟩
    · rw [hbs] at hsec
      exact absurd hsec (by simp)
    · rw [hsec] at hbs
      simp only [Option.some.injEq, Prod.mk.injEq] at hbs
      obtain ⟨rfl, rfl⟩ := hbs
      omega
    · rw [hsec] at hbs
      simp only [Option.some.injEq, Prod.mk.injEq] at hbs
      obtain ⟨rfl, rfl⟩ := hbs
      obtain ⟨hcne, hflat, _, _⟩ := sectionSplitLoop_spec f sec chunks hloop
      exact ⟨chunks, hcne, rfl, hflat⟩

/-- Witness for C4: a one-character section closed into an empty open chunk
ends up unbroken inside the single chunk of the final bunch. -/
theorem C4_section_atomicity_witness :
    ∃ m ∈ (⟨[['a']]⟩ : MsgBunch).messages, occursIn ['a'] m :=
  (C4_section_atomicity ⟨⟨[[]]⟩, 0, some (['a'], 1)⟩ ⟨⟨[['a']]⟩, 1, none⟩
      ⟨⟨[['a']]⟩, 1, none⟩ ⟨[['a']]⟩ defaultSplitPred ['a'] 1 [] rfl rfl rfl rfl).1
    (by decide) (by decide)

/-! ## Unsplittable sections -/

/-- A section of 2001 letters: longer than `MSG_LIMIT` and containing no
character accepted by the default split predicate. -/
def badSec : Str := List.replicate 2001 'a'

/-- Builder holding the unsplittable section, about to close it. -/
def badBuilder : MsgBunchBuilder := ⟨⟨[[]]⟩, 0, some (badSec, 2001)⟩

/-- Builder whose tracked counter is stale (2001) while its only chunk holds
two characters - the state a multi-chunk section split leaves behind.
Feeding it any further text panics inside `add_string`. -/
def overBuilder : MsgBunchBuilder := ⟨⟨[['h', 'i']]⟩, 2001, none⟩

lemma badSec_take : badSec.take MSG_LIMIT = List.replicate 2000 'a' := by
  have hmin : min MSG_LIMIT 2001 = 2000 := by
    rw [MSG_LIMIT]
    omega
  rw [badSec, List.take_replicate, hmin]

/-- Remaining fragments of the splitting loop of `end_section_with`: the
successive values the section buffer takes as the loop iterates.
`FragReach f sec frag` holds when `frag` is `sec` itself or is obtained from
an over-limit fragment by cutting just after the cut point `p` the backward
scan finds, exactly as the loop body does (`split_off`/`replace`). -/
inductive FragReach (f : Char → Bool) : Str → Str → Prop
  | refl (s : Str) : FragReach f s s
  | step {s t : Str} (p : Nat) (hlen : s.length > MSG_LIMIT)
      (hp : rfindIdx f (s.take MSG_LIMIT) = some p)
      (h : FragReach f (s.drop (p + 1)) t) : FragReach f s t

/-- If the loop reaches a remaining fragment longer than `MSG_LIMIT` whose
backward-scan window contains no acceptable cut point, the whole loop fails
with the generic unwrap panic. -/
lemma sectionSplitLoop_error_of_frag {f : Char → Bool} {sec frag : Str}
    (hr : FragReach f sec frag) :
    frag.length > MSG_LIMIT → rfindIdx f (frag.take MSG_LIMIT) = none →
    sectionSplitLoop f sec = .error Panic.unwrapNone := by
  induction hr with
  | refl s =>
      intro hlong hnone
      rw [sectionSplitLoop, dif_pos hlong, hnone]
  | step p hlen hp h ih =>
      intro hlong hnone
      rw [sectionSplitLoop, dif_pos hlen]
      simp only [hp, ih hlong hnone]

/-- C3 (amended): when `end_section_with` is called on a section whose
scalar-value length exceeds `MSG_LIMIT` and some remaining fragment longer
than `MSG_LIMIT` reached by the splitting loop contains no character
satisfying the split predicate within its `MSG_LIMIT`-character backward-scan
window, the operation fails - a Rust panic from `Option::unwrap()` on `None`
- instead of emitting any chunk longer than `MSG_LIMIT`; the failure is that
generic unwrap panic, not a distinct, named error condition. -/
theorem C3_unsplittable_failure (b : MsgBunchBuilder) (f : Char → Bool) (sec frag : Str)
    (size : Nat)
    (hsec : b.no_split_section = some (sec, size))
    (hover : b.chars_num + size > MSG_LIMIT)
    (hlong : sec.length > MSG_LIMIT)
    (hfrag : FragReach f sec frag)
    (hfraglong : frag.length > MSG_LIMIT)
    (hnosplit : (frag.take MSG_LIMIT).all (fun c => ! f c) = true) :
    b.end_section_with f = .error Panic.unwrapNone := by
  have hfind : rfindIdx f (frag.take MSG_LIMIT) = none := by
    apply rfindIdx_eq_none
    intro c hc
    have := List.all_eq_true.mp hnosplit c hc
    simpa using this
  have hloop : sectionSplitLoop f sec = .error Panic.unwrapNone :=
    sectionSplitLoop_error_of_frag hfrag hfraglong hfind
  simp only [MsgBunchBuilder.end_section_with, hsec]
  rw [if_pos hover]
  simp only [hloop]

/-- Witness section for C3: a comma followed by 4000 letters.  The first
backward-scan window contains an acceptable cut point (the comma at
position 0), so the loop cuts after it; only the second remaining fragment
- 4000 letters with no cut point in its window - triggers the failure, at
the second loop iteration. -/
def badSec2 : Str := ',' :: List.replicate 4000 'a'

/-- Builder holding `badSec2`, about to close it. -/
def badBuilder2 : MsgBunchBuilder := ⟨⟨[[]]⟩, 0, some (badSec2, 4001)⟩

/-- Witness for C3 (amended): the failure fires on the second remaining
fragment of the loop, not the first. -/
theorem C3_unsplittable_failure_witness :
    badBuilder2.end_section_with defaultSplitPred = .error Panic.unwrapNone := by
  have hnone1999 : rfindIdx defaultSplitPred (List.replicate 1999 'a') = none := by
    apply rfindIdx_eq_none
    intro c hc
    rw [List.eq_of_mem_replicate hc]
    rfl
  have htake : badSec2.take MSG_LIMIT = ',' :: List.replicate 1999 'a' := by
    rw [badSec2, MSG_LIMIT, show (2000 : Nat) = 1999 + 1 from rfl, List.take_succ_cons,
      List.take_replicate, show min 1999 4000 = 1999 from by omega]
  have hfind1 : rfindIdx defaultSplitPred (badSec2.take MSG_LIMIT) = some 0 := by
    rw [htake]
    unfold rfindIdx
    rw [hnone1999]
    rfl
  have hdrop : badSec2.drop (0 + 1) = List.replicate 4000 'a' := by
    rw [badSec2, List.drop_succ_cons, List.drop_zero]
  have hfrag : FragReach defaultSplitPred badSec2 (List.replicate 4000 'a') := by
    refine FragReach.step 0 ?_ hfind1 ?_
    · rw [badSec2, List.length_cons, List.length_replicate, MSG_LIMIT]
      omega
    · rw [hdrop]
      exact FragReach.refl _
  have hfraglong : (List.replicate 4000 (α := Char) 'a').length > MSG_LIMIT := by
    rw [List.length_replicate, MSG_LIMIT]
    omega
  have hnosplit : ((List.replicate 4000 (α := Char) 'a').take MSG_LIMIT).all
      (fun c => ! defaultSplitPred c) = true := by
    rw [List.take_replicate, show min MSG_LIMIT 4000 = 2000 from by rw [MSG_LIMIT]; omega,
      List.all_replicate]
    decide
  exact C3_unsplittable_failure badBuilder2 defaultSplitPred badSec2
    (List.replicate 4000 'a') 4001 rfl (by decide)
    (by rw [badSec2, List.length_cons, List.length_replicate, MSG_LIMIT]; omega)
    hfrag hfraglong hnosplit

/-- Counterexample to C3 as stated: the unsplittable-section condition does
fail, but it surfaces as `Panic.unwrapNone` - the generic `Option::unwrap`
panic - which is exactly the same observable failure as an unrelated
internal failure of `add_string` (here: an `add` on a builder whose stale
counter sends it down the splitting branch with nothing to split).  The
failure is therefore not a distinct, named error condition: the library's
single failure mechanism carries no information about its cause. -/
theorem C3_named_error_counterexample :
    badBuilder.end_section_with defaultSplitPred = .error Panic.unwrapNone ∧
    overBuilder.add_string ['x'] = .error Panic.unwrapNone := by
  constructor
  · have hfind : rfindIdx defaultSplitPred (badSec.take MSG_LIMIT) = none := by
      apply rfindIdx_eq_none
      intro c hc
      rw [badSec_take] at hc
      rw [List.eq_of_mem_replicate hc]
      rfl
    have hloop : sectionSplitLoop defaultSplitPred badSec = .error Panic.unwrapNone := by
      rw [sectionSplitLoop,
        dif_pos (by rw [badSec, List.length_replicate, MSG_LIMIT]; omega), hfind]
    simp only [badBuilder, MsgBunchBuilder.end_section_with]
    rw [if_pos (by rw [MSG_LIMIT]; omega)]
    simp only [hloop]
  · have hw : wrapSub MSG_LIMIT (List.length (['h', 'i'] : Str)) = 1998 := by
      rw [show List.length (['h', 'i'] : Str) = 2 from rfl,
        wrapSub_of_le (by rw [MSG_LIMIT]; omega), MSG_LIMIT]
    have hsp : splitPair (List.length (['h', 'i'] : Str)) ['x'] = none := by
      rw [splitPair_eq, hw]
      norm_num
    simp only [overBuilder, MsgBunchBuilder.add_string, List.getLast?_singleton, hsp]
    rw [if_pos (by rw [MSG_LIMIT]; norm_num)]

/-- C5: adding a single string of exactly `MSG_LIMIT + 5` characters to a
freshly constructed builder (no section open) and then building yields
exactly two chunks: the first of scalar-value length `MSG_LIMIT`, the second
of length 5. -/
theorem C5_limit_plus_five :
    MsgBunchBuilder.new.add_string (List.replicate (MSG_LIMIT + 5) 'a') =
      .ok ⟨⟨[List.replicate 2000 'a', List.replicate 5 'a']⟩, 5, none⟩ ∧
    (⟨⟨[List.replicate 2000 'a', List.replicate 5 'a']⟩, 5, none⟩ :
        MsgBunchBuilder).build = .ok ⟨[List.replicate 2000 'a', List.replicate 5 'a']⟩ ∧
    ([List.replicate 2000 'a', List.replicate 5 'a'] : List Str).map List.length =
      [MSG_LIMIT, 5] := by
  refine ⟨?_, rfl, ?_⟩
  · generalize hs0 : List.replicate (MSG_LIMIT + 5) 'a' = s0
    have hslen : s0.length = MSG_LIMIT + 5 := by
      rw [← hs0, List.length_replicate]
    have hsp : splitPair 0 s0 = some (2001, 2000) := by
      have hw0 : wrapSub MSG_LIMIT 0 = 2000 := by
        rw [wrapSub_of_le (Nat.zero_le _), MSG_LIMIT]
      rw [splitPair_eq, hw0, if_pos (by rw [hslen, MSG_LIMIT]; omega)]
    have htake : s0.take 2000 = List.replicate 2000 'a' := by
      have hmin : min 2000 (MSG_LIMIT + 5) = 2000 := by
        rw [MSG_LIMIT]
        omega
      rw [← hs0, List.take_replicate, hmin]
    have hdrop : s0.drop 2000 = List.replicate 5 'a' := by
      have h5 : MSG_LIMIT + 5 - 2000 = 5 := by
        rw [MSG_LIMIT]
      rw [← hs0, List.drop_replicate, h5]
    simp only [MsgBunchBuilder.new, MsgBunch.new, MsgBunchBuilder.add_string,
      List.getLast?_singleton, List.length_nil, hsp]
    rw [if_pos (by rw [hslen, MSG_LIMIT]; omega)]
    rw [htake, hdrop, List.length_replicate]
    rfl
  · simp only [List.map_cons, List.map_nil, List.length_replicate, MSG_LIMIT]

/-- C9: the internal `debug_assert_eq!(s, MSG_LIMIT)` of `add_string`
(line 114) never holds when the splitting branch runs: the zipped counter
starts at `cur_msg_size + 1`, so its value at the selected split position is
always `MSG_LIMIT + 1`, one more than the assertion expects - here evaluated
at the splitting branch taken for a fresh builder and a 2005-character
string, where the pair is `(2001, 2000)`, not `(2000, _)`.  Debug builds
panic on every splitting `add_string`; release builds skip the check. -/
theorem C9_debug_assert_fails :
    splitPair 0 (List.replicate 2005 'a') = some (MSG_LIMIT + 1, MSG_LIMIT) ∧
      MSG_LIMIT = 2000 := by
  constructor
  · have hw0 : wrapSub MSG_LIMIT 0 = 2000 := by
      rw [wrapSub_of_le (Nat.zero_le _), MSG_LIMIT]
    rw [splitPair_eq, hw0]
    rw [if_pos (by rw [List.length_replicate]; omega)]
    rw [MSG_LIMIT]
  · rw [MSG_LIMIT]

/-! ## The trim splitter -/

lemma rfindIdx_getLast {f : Char → Bool} :
    ∀ {l : Str} {a : Char}, l.getLast? = some a → f a = true →
      rfindIdx f l = some (l.length - 1)
  | [], a, hl, _ => by simp at hl
  | [c], a, hl, ha => by
      simp only [List.getLast?_singleton, Option.some.injEq] at hl
      subst hl
      simp [rfindIdx, ha]
  | c :: d :: ds, a, hl, ha => by
      rw [List.getLast?_cons_cons] at hl
      unfold rfindIdx
      rw [rfindIdx_getLast hl ha]
      simp [List.length_cons]

/-- C8: for every string `t`, the three pieces returned by `split_trim`
concatenate back to `t` exactly; if `t` is entirely whitespace (including
empty) the leading and core pieces are empty and the trailing piece is the
whole of `t`; and if `t` has no leading or trailing whitespace the leading
and trailing pieces are empty and the core is the whole of `t`. -/
theorem C8_split_trim_round_trip (t : Str) :
    ((split_trim t).1 ++ (split_trim t).2.1 ++ (split_trim t).2.2 = t) ∧
    (t.all rustIsWhitespace = true → split_trim t = ([], [], t)) ∧
    ((t.head?.all fun c => ! rustIsWhitespace c) = true →
      (t.getLast?.all fun c => ! rustIsWhitespace c) = true →
      split_trim t = ([], t, [])) := by
  refine ⟨?_, ?_, ?_⟩
  · simp only [split_trim]
    rw [List.take_append_drop, List.take_append_drop]
  · intro hall
    have hnone : rfindIdx (fun c => ! rustIsWhitespace c) t = none := by
      apply rfindIdx_eq_none
      intro c hc
      have := List.all_eq_true.mp hall c hc
      simp [this]
    simp [split_trim, hnone]
  · intro hhead hlast
    rcases t with _ | ⟨c, rest⟩
    · rfl
    · obtain ⟨a, hga⟩ : ∃ a, (c :: rest : Str).getLast? = some a :=
        Option.isSome_iff_exists.mp (by simp [List.getLast?_isSome])
      rw [hga] at hlast
      simp only [Option.all_some] at hlast
      have hr : rfindIdx (fun x => ! rustIsWhitespace x) (c :: rest) =
          some ((c :: rest : Str).length - 1) := rfindIdx_getLast hga hlast
      simp only [List.head?_cons, Option.all_some] at hhead
      simp only [split_trim, hr]
      have hlen : (c :: rest : Str).length - 1 + 1 = (c :: rest : Str).length := by
        simp [List.length_cons]
      rw [hlen, List.take_length, List.drop_length, List.findIdx?_cons]
      rw [if_pos hhead]
      simp

/-- Witness for C8 at the all-whitespace one-character string (spec
scenario 3): the whole input becomes the trailing piece. -/
theorem C8_split_trim_round_trip_witness :
    split_trim ['\n'] = ([], [], ['\n']) :=
  (C8_split_trim_round_trip ['\n']).2.1 (by decide)
